import Mathlib

/-!
Verification development for the `watcher` motion-detection program.

The program (Go, `gocv`-based) watches a video stream, detects motion via
background subtraction and contour areas, and drives a three-state machine
Watching / MotionDetected ("Confirming") / Recording with a confirmation
threshold and a dropoff threshold.  The development below gives a shallow
embedding of the control logic of that program at two granularities:

* a pure per-cycle state machine over timed boolean motion signals
  (`WatcherModel.step`, `WatcherModel.run`), embedding the transition logic of
  the kernels `Watcher.Watching`, `Watcher.MotionDetected`,
  `Watcher.Recording`;
* an effectful embedding of the kernels themselves over an explicit list of
  device reads, with sink open/write outcomes and an event trace
  (`WatcherModel.Watching`, `WatcherModel.MotionDetected`,
  `WatcherModel.Recording`, `WatcherModel.drive`), embedding also
  `Watcher.Read` and the driver loop in `main`.

Times are modelled as natural numbers (an abstract clock, think
milliseconds); Go's signed duration comparisons `time.Since(x) > d` against a
nonnegative threshold agree with truncated natural subtraction
`now - x > d`, so `Nat` subtraction is a faithful model for every trace.
Contour areas (Go `float64`) are modelled as rationals: the program only
compares them against the integer constant `MinimumArea`, and that order
comparison is what the claims are about.
-/

namespace WatcherModel

/-! ### Constants from the source -/

/-- Go: `const MinimumArea = 3000` — minimal contour area counted as motion. -/
def MinimumArea : ℚ := 3000

/-- Go: `const DefaultRecordingThreshold = 2 * time.Second`, in milliseconds. -/
def DefaultRecordingThreshold : Nat := 2000

/-- Go: `const DefaultRecordingDropoff = 2 * time.Second`, in milliseconds. -/
def DefaultRecordingDropoff : Nat := 2000

/-- Go: `const DefaultWatchCycle = 200 * time.Millisecond`, in milliseconds. -/
def DefaultWatchCycle : Nat := 200

/-! ### Contours and the motion evaluator `Watcher.FindMotion` -/

/-- A candidate contour as seen by `FindMotion`: an identity (so that frames
drawn/filtered can be tracked) and its `gocv.ContourArea`. -/
structure Contour where
  id : Nat
  area : ℚ
deriving DecidableEq

/-- The body of the `for i, shape := range shapes` loop of
`Watcher.FindMotion`: skips every shape with `area < MinimumArea`; any
surviving shape sets `motionDetected = true` and is drawn onto the debug
image (we collect the drawn shapes, in source order). -/
def findMotionLoop : List Contour → Bool × List Contour
  | [] => (false, [])
  | c :: cs =>
    let r := findMotionLoop cs
    if c.area < MinimumArea then r else (true, c :: r.2)

/-- `Watcher.FindMotion`: evaluates the contours of the current frame, and —
exactly when motion was detected — performs the timestamp bookkeeping
`w.motionDetectedAt = time.Now()`.  Returns the new `motionDetectedAt`, the
boolean motion signal, and the drawn (filtered) shapes. -/
def FindMotion (motionDetectedAt : Nat) (now : Nat) (shapes : List Contour) :
    Nat × Bool × List Contour :=
  let r := findMotionLoop shapes
  (if r.1 then now else motionDetectedAt, r.1, r.2)

/-! ### The pure per-cycle state machine

Each cycle of each kernel of the source performs one successful
`Watcher.Read` followed by `Watcher.FindMotion` and a phase-dependent
decision.  A `Sig` is the per-cycle input as the state machine sees it: the
time `time.Now()` of the cycle and the boolean motion signal.  The sink is
assumed to succeed in this view (its failures are modelled in the effectful
embedding below). -/

/-- One per-cycle input: the time of the cycle and the motion signal. -/
structure Sig where
  t : Nat
  present : Bool
deriving DecidableEq

/-- The current kernel, with the timestamp local to its invocation:
`motionDetected` carries `motionBegan`, `recording` carries
`recordingBegan`. -/
inductive Phase where
  | watching : Phase
  | motionDetected : Nat → Phase
  | recording : Nat → Phase
deriving DecidableEq

/-- The state threaded through cycles: the phase and the watcher field
`motionDetectedAt` (zero-valued at start, as Go's zero `time.Time`). -/
structure WState where
  phase : Phase
  motionDetectedAt : Nat
deriving DecidableEq

/-- The two debounce thresholds (the source fixes both at 2s; the spec calls
them configurable, and every theorem below holds for all values). -/
structure Cfg where
  confirm : Nat
  dropoff : Nat
deriving DecidableEq

/-- The source's default thresholds. -/
def defaultCfg : Cfg := ⟨DefaultRecordingThreshold, DefaultRecordingDropoff⟩

/-- One cycle of the state machine, with the tick-wait flag.

The returned `Bool` is `true` exactly when the code path taken ends at
`<-readLimiter.C` in `Watcher.Watching` before the next read; all paths in
`Watcher.MotionDetected` and `Watcher.Recording` have no tick wait, and a
kernel change also reaches its next read without a wait.

Branches, from the source:
* `Watching`: motion ⇒ `return w.MotionDetected` (which sets
  `motionBegan = time.Now()`, i.e. the time of the confirming cycle);
  otherwise annotate, publish, wait for the tick.
* `MotionDetected`: no motion ⇒ `return w.BackToWatching`; motion and
  `time.Since(motionBegan) > DefaultRecordingThreshold` ⇒
  `return w.Recording` (which sets `recordingBegan = time.Now()`);
  otherwise continue.
* `Recording`: no motion and
  `time.Since(w.motionDetectedAt) > DefaultRecordingDropoff` ⇒
  `return w.BackToWatching`; otherwise append and continue.

`FindMotion` runs before the decision in every kernel, so
`motionDetectedAt` is set to the cycle time exactly when the signal is
present. -/
def stepW (cfg : Cfg) (s : WState) (sig : Sig) : WState × Bool :=
  match s.phase with
  | .watching =>
    if sig.present then (⟨.motionDetected sig.t, sig.t⟩, false)
    else (⟨.watching, s.motionDetectedAt⟩, true)
  | .motionDetected mb =>
    if sig.present then
      if cfg.confirm < sig.t - mb then (⟨.recording sig.t, sig.t⟩, false)
      else (⟨.motionDetected mb, sig.t⟩, false)
    else (⟨.watching, s.motionDetectedAt⟩, false)
  | .recording rb =>
    if sig.present then (⟨.recording rb, sig.t⟩, false)
    else if cfg.dropoff < sig.t - s.motionDetectedAt then
      (⟨.watching, s.motionDetectedAt⟩, false)
    else (⟨.recording rb, s.motionDetectedAt⟩, false)

/-- One cycle, state part only. -/
def step (cfg : Cfg) (s : WState) (sig : Sig) : WState := (stepW cfg s sig).1

/-- Initial state: `main` starts with `kernel := watcher.Watching` and
`motionDetectedAt` zero-valued. -/
def init : WState := ⟨.watching, 0⟩

/-- Running the machine on a finite sequence of per-cycle signals. -/
def run (cfg : Cfg) (l : List Sig) : WState := l.foldl (step cfg) init

/-! ### Declarative trace predicates (the specification side of C1)

These render the spec's sentence "the machine is in `Recording` if and only
if it has observed an unbroken-by-dropoff run of `present=true` signals
whose confirming sub-run exceeded `ConfirmThreshold` before any gap exceeded
`DropoffThreshold`" as predicates on the raw signal sequence, with no
reference to the state machine. -/

/-- The signal of cycle `k` (a never-used default outside the range). -/
def sigAt (l : List Sig) (k : Nat) : Sig := l.getD k ⟨0, false⟩

/-- The time of the most recent `present=true` signal of the sequence
(zero when there is none, matching the zero-valued `motionDetectedAt`). -/
def lastMotionTime (l : List Sig) : Nat :=
  l.foldl (fun a s => if s.present then s.t else a) 0

/-- Cycle `i` starts a run of `present=true` signals: it is present and is
either the first cycle or preceded by an absent cycle. -/
def runStart (l : List Sig) (i : Nat) : Prop :=
  i < l.length ∧ (sigAt l i).present = true ∧
    (i = 0 ∨ (sigAt l (i - 1)).present = false)

/-- The run starting at cycle `i` has a confirming sub-run `i..j`: all its
cycles are present and its duration exceeds the confirm threshold. -/
def confirmedBy (cfg : Cfg) (l : List Sig) (i j : Nat) : Prop :=
  runStart l i ∧ i ≤ j ∧ j < l.length ∧
    (∀ k, k ≤ j → i ≤ k → (sigAt l k).present = true) ∧
    cfg.confirm < (sigAt l j).t - (sigAt l i).t

/-- Cycle `k` observes a motion-free gap longer than the dropoff threshold:
it is absent and its time is more than `dropoff` after the last present
cycle before it. -/
def gapBreaks (cfg : Cfg) (l : List Sig) (k : Nat) : Prop :=
  k < l.length ∧ (sigAt l k).present = false ∧
    cfg.dropoff < (sigAt l k).t - lastMotionTime (l.take k)

/-- The sequence contains a run of present signals whose confirming sub-run
exceeded the confirm threshold, still unbroken by dropoff: no later cycle
observed an over-threshold motion-free gap. -/
def aliveRecording (cfg : Cfg) (l : List Sig) : Prop :=
  ∃ i < l.length, ∃ j < l.length,
    confirmedBy cfg l i j ∧ ∀ k < l.length, j < k → ¬ gapBreaks cfg l k

/-- The sequence ends in a still-unconfirmed run of present signals starting
at cycle `i`: all cycles from `i` on are present, no cycle after `i` exceeds
the confirm threshold, and no unbroken confirmed run was alive when the run
started (otherwise the machine would have been recording, not confirming). -/
def confirmingRun (cfg : Cfg) (l : List Sig) (i : Nat) : Prop :=
  runStart l i ∧
    (∀ k, k < l.length → i ≤ k → (sigAt l k).present = true) ∧
    (∀ k, k < l.length → i < k → (sigAt l k).t - (sigAt l i).t ≤ cfg.confirm) ∧
    ¬ aliveRecording cfg (l.take i)

/-! ### Recording filenames (`FilenameLayout`, C8)

`Watcher.Recording` derives the sink filename as
`fmt.Sprint(recordingBegan.Format(FilenameLayout), ".mp4")` with
`FilenameLayout = "2006-01-02-150405-MST"`, Go's reference-time rendering of
zero-padded year-month-day, hourminutesecond and the timezone
abbreviation. -/

/-- Go's `FilenameLayout` reference string. -/
def FilenameLayout : String := "2006-01-02-150405-MST"

/-- A wall-clock timestamp at second resolution with a timezone
abbreviation — the fields of a Go `time.Time` that `FilenameLayout`
renders. -/
structure GoTime where
  year : Nat
  month : Nat
  day : Nat
  hour : Nat
  minute : Nat
  second : Nat
  zoneAbbrev : String
deriving DecidableEq

/-- Zero-padding to two digits (`01`, `02`, `15`, `04`, `05` verbs). -/
def pad2 (n : Nat) : String := if n < 10 then "0" ++ toString n else toString n

/-- Zero-padding to four digits (the `2006` verb). -/
def pad4 (n : Nat) : String :=
  if n < 10 then "000" ++ toString n
  else if n < 100 then "00" ++ toString n
  else if n < 1000 then "0" ++ toString n
  else toString n

/-- `t.Format(FilenameLayout)`: sortable date-time plus timezone
abbreviation. -/
def formatFilenameLayout (t : GoTime) : String :=
  pad4 t.year ++ "-" ++ pad2 t.month ++ "-" ++ pad2 t.day ++ "-" ++
    pad2 t.hour ++ pad2 t.minute ++ pad2 t.second ++ "-" ++ t.zoneAbbrev

/-- The sink filename opened by `Watcher.Recording`:
`fmt.Sprint(recordingBegan.Format(FilenameLayout), ".mp4")`. -/
def recordingFilename (t : GoTime) : String := formatFilenameLayout t ++ ".mp4"

/-! ### The effectful embedding: `Watcher.Read`, the kernels, and `main`

The device is a finite list of read results; each successfully captured
frame carries an identity, its emptiness flag, its contours, the cycle time,
and the sink's outcome for an open or append performed while it is the
current image.  The kernels return, as in the source, a next kernel and an
error, together with the unconsumed input, the updated watcher state and the
trace of observable events. -/

/-- A captured frame and the environment's behaviour attached to it. -/
structure Frame where
  id : Nat
  isEmpty : Bool
  contours : List Contour
  t : Nat
  /-- outcome of `gocv.VideoWriterFile` if a recording opens at this frame -/
  openOk : Bool
  /-- outcome of `file.Write(w.img)` if this frame is appended -/
  writeOk : Bool
deriving DecidableEq

/-- One result of `w.src.Read`: a captured frame, or a device failure. -/
inductive ReadItem where
  | frame : Frame → ReadItem
  | readFail : ReadItem
deriving DecidableEq

/-- Result of `Watcher.Read`: the first non-empty frame with the rest of the
input, the device error `ErrReadDevice`, or exhaustion of the modelled input
(in which case the program would still be blocked reading). -/
inductive ReadRes where
  | frameOk : Frame → List ReadItem → ReadRes
  | devErr : List ReadItem → ReadRes
  | noInput : ReadRes
deriving DecidableEq

/-- `Watcher.Read`: loops reading the device; a failed read returns
`ErrReadDevice`; an empty frame is skipped and the device is read again;
a non-empty frame is copied to the debug image and returned. -/
def Read : List ReadItem → ReadRes
  | [] => .noInput
  | .readFail :: rest => .devErr rest
  | .frame f :: rest => if f.isEmpty then Read rest else .frameOk f rest

/-- Whether an item is a present-but-empty frame (the spec's
"empty-but-present frame"). -/
def emptyItem : ReadItem → Bool
  | .frame f => f.isEmpty
  | .readFail => false

/-- The spec's reading discipline, in its own words: silently skip
empty-but-present frames, then return the first non-empty frame, treat only
a device failure as end of stream, and block if the input runs out. -/
def ReadSpec (input : List ReadItem) : ReadRes :=
  match input.dropWhile emptyItem with
  | [] => .noInput
  | .readFail :: rest => .devErr rest
  | .frame f :: rest => .frameOk f rest

/-- Events observable from the loop: a frame entering the pipeline, the
sink lifecycle, and the tick wait. -/
inductive Ev where
  | readFrame : Nat → Ev
  | openSession : Nat → Ev
  | writeFrame : Nat → Ev
  | closeSession : Ev
  | waitTick : Ev
deriving DecidableEq

/-- The error kinds surfaced by the kernels: `ErrReadDevice` from `Read`,
and the sink's open and write failures. -/
inductive Err where
  | errReadDevice : Err
  | errOpenSink : Err
  | errWriteSink : Err
deriving DecidableEq

/-- The watcher's mutable state relevant to the control flow. -/
structure ESt where
  motionDetectedAt : Nat
deriving DecidableEq

/-- The next kernel designated by a returning kernel: `nil` (stop the
driver), `w.Watching`, `w.BackToWatching`, `w.MotionDetected` (with the
time it records as `motionBegan`) or `w.Recording` (with the current image,
the confirming frame).  `starved` marks exhaustion of the modelled input. -/
inductive KNext where
  | noKernel : KNext
  | watchingNext : KNext
  | backToWatching : KNext
  | motionNext : Nat → KNext
  | recordingNext : Frame → KNext
  | starved : KNext
deriving DecidableEq

/-- What a kernel invocation returns: its event trace, the Go return pair
(next kernel, error), the updated state, and the unconsumed input. -/
structure KRet where
  events : List Ev
  next : KNext
  err : Option Err
  st : ESt
  rest : List ReadItem
deriving DecidableEq

/-- The loop of `Watcher.Watching`, structurally recursive on a fuel bound
(each iteration consumes at least one input item, so any fuel of at least
`input.length` is exact; running out of fuel can then only happen with the
input exhausted, where the program would block reading): read, find motion;
on motion return `w.MotionDetected`; otherwise annotate, publish, wait for
the tick and loop. -/
def WatchingGo : Nat → ESt → List ReadItem → KRet
  | 0, st, input => ⟨[], .starved, none, st, input⟩
  | fuel + 1, st, input =>
    match Read input with
    | .noInput => ⟨[], .starved, none, st, []⟩
    | .devErr rest => ⟨[], .noKernel, some .errReadDevice, st, rest⟩
    | .frameOk f rest =>
      let fm := FindMotion st.motionDetectedAt f.t f.contours
      let st1 : ESt := ⟨fm.1⟩
      if fm.2.1 then ⟨[.readFrame f.id], .motionNext f.t, none, st1, rest⟩
      else
        let r := WatchingGo fuel st1 rest
        ⟨.readFrame f.id :: .waitTick :: r.events, r.next, r.err, r.st, r.rest⟩

/-- `Watcher.Watching`. -/
def Watching (st : ESt) (input : List ReadItem) : KRet :=
  WatchingGo input.length st input

/-- The loop of `Watcher.MotionDetected` with its local `motionBegan`
(fuel as in `WatchingGo`): read, find motion; no motion returns
`w.BackToWatching`; motion past the confirm threshold returns `w.Recording`
(the current image is the confirming frame); otherwise loop. -/
def MotionDetectedGo : Nat → ESt → Nat → List ReadItem → KRet
  | 0, st, _, input => ⟨[], .starved, none, st, input⟩
  | fuel + 1, st, motionBegan, input =>
    match Read input with
    | .noInput => ⟨[], .starved, none, st, []⟩
    | .devErr rest => ⟨[], .noKernel, some .errReadDevice, st, rest⟩
    | .frameOk f rest =>
      let fm := FindMotion st.motionDetectedAt f.t f.contours
      let st1 : ESt := ⟨fm.1⟩
      if fm.2.1 then
        if DefaultRecordingThreshold < f.t - motionBegan then
          ⟨[.readFrame f.id], .recordingNext f, none, st1, rest⟩
        else
          let r := MotionDetectedGo fuel st1 motionBegan rest
          ⟨.readFrame f.id :: r.events, r.next, r.err, r.st, r.rest⟩
      else ⟨[.readFrame f.id], .backToWatching, none, st1, rest⟩

/-- `Watcher.MotionDetected`, with `motionBegan` the time recorded at its
invocation. -/
def MotionDetected (st : ESt) (motionBegan : Nat) (input : List ReadItem) :
    KRet :=
  MotionDetectedGo input.length st motionBegan input

/-- The `for` loop of `Watcher.Recording` (the session is open; the `defer`
closes it on every return path, which we record as a `closeSession` event;
fuel as in `WatchingGo`): read, find motion; no motion past the dropoff
returns `w.BackToWatching`; otherwise annotate and append the frame, a
failed append returning `w.BackToWatching` with the error. -/
def RecordingLoopGo : Nat → ESt → List ReadItem → KRet
  | 0, st, input => ⟨[], .starved, none, st, input⟩
  | fuel + 1, st, input =>
    match Read input with
    | .noInput => ⟨[], .starved, none, st, []⟩
    | .devErr rest => ⟨[.closeSession], .noKernel, some .errReadDevice, st, rest⟩
    | .frameOk f rest =>
      let fm := FindMotion st.motionDetectedAt f.t f.contours
      let st1 : ESt := ⟨fm.1⟩
      if !fm.2.1 && decide (DefaultRecordingDropoff < f.t - st.motionDetectedAt) then
        ⟨[.readFrame f.id, .closeSession], .backToWatching, none, st1, rest⟩
      else if f.writeOk then
        let r := RecordingLoopGo fuel st1 rest
        ⟨.readFrame f.id :: .writeFrame f.id :: r.events, r.next, r.err, r.st,
          r.rest⟩
      else
        ⟨[.readFrame f.id, .closeSession], .backToWatching, some .errWriteSink,
          st1, rest⟩

/-- The recording loop. -/
def RecordingLoop (st : ESt) (input : List ReadItem) : KRet :=
  RecordingLoopGo input.length st input

/-- `Watcher.Recording`: `recordingBegan` is the entry time (the confirming
frame is the current image); the sink is opened for the filename derived
from `recordingBegan`, a failure returning `w.BackToWatching` with the
error; the confirming frame is annotated and appended before any further
read, a failed append again returning `w.BackToWatching`; then the loop
runs.  The deferred close is recorded on every return after a successful
open. -/
def Recording (st : ESt) (confirming : Frame) (input : List ReadItem) : KRet :=
  if confirming.openOk then
    if confirming.writeOk then
      let r := RecordingLoop st input
      ⟨.openSession confirming.t :: .writeFrame confirming.id :: r.events,
        r.next, r.err, r.st, r.rest⟩
    else
      ⟨[.openSession confirming.t, .closeSession], .backToWatching,
        some .errWriteSink, st, input⟩
  else ⟨[], .backToWatching, some .errOpenSink, st, input⟩

/-- The outcome of the process as driven by `main`'s kernel loop:
`log.Fatal` on an error (the process exits), normal exit on a `nil` kernel,
or exhaustion of the modelled input (the program would still be running). -/
inductive ProcRes where
  | fatal : Err → List Ev → List ReadItem → ProcRes
  | exited : List Ev → List ReadItem → ProcRes
  | ranOut : List Ev → List ReadItem → ProcRes
deriving DecidableEq

/-- Prepend already-emitted events to a process outcome. -/
def ProcRes.withEvents (evs : List Ev) : ProcRes → ProcRes
  | .fatal e evs2 rest => .fatal e (evs ++ evs2) rest
  | .exited evs2 rest => .exited (evs ++ evs2) rest
  | .ranOut evs2 rest => .ranOut (evs ++ evs2) rest

/-- `main`'s driver loop: `for kernel != nil { kernel, err = kernel(ctx);
if err != nil { log.Fatal(err) } }`.  Any non-nil error — including a sink
open or write failure returned alongside `w.BackToWatching` — reaches
`log.Fatal`, which terminates the process.  `w.BackToWatching` itself only
re-annotates and immediately yields `w.Watching`.  Fuel bounds the number
of kernel invocations; `mainRun` supplies enough for any input. -/
def drive : Nat → KNext → ESt → List ReadItem → ProcRes
  | 0, _, _, input => .ranOut [] input
  | _ + 1, .noKernel, _, input => .exited [] input
  | _ + 1, .starved, _, input => .ranOut [] input
  | fuel + 1, .watchingNext, st, input =>
    let r := Watching st input
    (match r.err with
      | some e => ProcRes.fatal e r.events r.rest
      | none => (drive fuel r.next r.st r.rest).withEvents r.events)
  | fuel + 1, .backToWatching, st, input =>
    let r := Watching st input
    (match r.err with
      | some e => ProcRes.fatal e r.events r.rest
      | none => (drive fuel r.next r.st r.rest).withEvents r.events)
  | fuel + 1, .motionNext mb, st, input =>
    let r := MotionDetected st mb input
    (match r.err with
      | some e => ProcRes.fatal e r.events r.rest
      | none => (drive fuel r.next r.st r.rest).withEvents r.events)
  | fuel + 1, .recordingNext f, st, input =>
    let r := Recording st f input
    (match r.err with
      | some e => ProcRes.fatal e r.events r.rest
      | none => (drive fuel r.next r.st r.rest).withEvents r.events)

/-- The whole program on a finite device input: `main` starts at
`watcher.Watching` with a zero-valued `motionDetectedAt`. -/
def mainRun (input : List ReadItem) : ProcRes :=
  drive (input.length + 1) .watchingNext ⟨0⟩ input

/-- A contour survives the minimum-area filter of `FindMotion`. -/
def survives (c : Contour) : Bool := !decide (c.area < MinimumArea)

instance (l : List Sig) (i : Nat) : Decidable (runStart l i) := by
  unfold runStart; infer_instance

instance (cfg : Cfg) (l : List Sig) (i j : Nat) :
    Decidable (confirmedBy cfg l i j) := by
  unfold confirmedBy; infer_instance

instance (cfg : Cfg) (l : List Sig) (k : Nat) :
    Decidable (gapBreaks cfg l k) := by
  unfold gapBreaks; infer_instance

instance (cfg : Cfg) (l : List Sig) : Decidable (aliveRecording cfg l) := by
  unfold aliveRecording; infer_instance

instance (cfg : Cfg) (l : List Sig) (i : Nat) :
    Decidable (confirmingRun cfg l i) := by
  unfold confirmingRun; infer_instance

/-! ## Basic lemmas about the embedding -/

theorem sigAt_append_lt (l : List Sig) (s : Sig) (k : Nat) (h : k < l.length) :
    sigAt (l ++ [s]) k = sigAt l k :=
  List.getD_append l [s] _ k h

theorem sigAt_append_len (l : List Sig) (s : Sig) :
    sigAt (l ++ [s]) l.length = s := by
  simp [sigAt, List.getD_eq_getElem?_getD]

theorem sigAt_take (l : List Sig) (m k : Nat) (h : k < m) :
    sigAt (l.take m) k = sigAt l k := by
  simp [sigAt, List.getD_eq_getElem?_getD, List.getElem?_take, h]

theorem run_concat (cfg : Cfg) (l : List Sig) (s : Sig) :
    run cfg (l ++ [s]) = step cfg (run cfg l) s := by
  simp [run, List.foldl_concat]

theorem lastMotionTime_concat (l : List Sig) (s : Sig) :
    lastMotionTime (l ++ [s]) =
      if s.present then s.t else lastMotionTime l := by
  simp [lastMotionTime, List.foldl_concat]

theorem lastMotionTime_take_append (l : List Sig) (s : Sig) (k : Nat)
    (h : k ≤ l.length) :
    lastMotionTime ((l ++ [s]).take k) = lastMotionTime (l.take k) := by
  rw [List.take_append_of_le_length h]

/-- Evaluating one step from the `Watching` phase. -/
theorem step_watching_eq (cfg : Cfg) (s : WState) (sig : Sig)
    (h : s.phase = Phase.watching) :
    step cfg s sig =
      if sig.present then ⟨Phase.motionDetected sig.t, sig.t⟩
      else ⟨Phase.watching, s.motionDetectedAt⟩ := by
  rcases s with ⟨ph, m⟩
  cases ph <;> simp_all [step, stepW] <;> split_ifs <;> rfl

/-- Evaluating one step from the `MotionDetected` phase. -/
theorem step_md_eq (cfg : Cfg) (s : WState) (sig : Sig) (mb : Nat)
    (h : s.phase = Phase.motionDetected mb) :
    step cfg s sig =
      if sig.present then
        if cfg.confirm < sig.t - mb then ⟨Phase.recording sig.t, sig.t⟩
        else ⟨Phase.motionDetected mb, sig.t⟩
      else ⟨Phase.watching, s.motionDetectedAt⟩ := by
  rcases s with ⟨ph, m⟩
  cases ph <;> simp_all [step, stepW] <;> split_ifs <;> rfl

/-- Evaluating one step from the `Recording` phase. -/
theorem step_rec_eq (cfg : Cfg) (s : WState) (sig : Sig) (rb : Nat)
    (h : s.phase = Phase.recording rb) :
    step cfg s sig =
      if sig.present then ⟨Phase.recording rb, sig.t⟩
      else if cfg.dropoff < sig.t - s.motionDetectedAt then
        ⟨Phase.watching, s.motionDetectedAt⟩
      else ⟨Phase.recording rb, s.motionDetectedAt⟩ := by
  rcases s with ⟨ph, m⟩
  cases ph <;> simp_all [step, stepW] <;> split_ifs <;> rfl

/-- `motionDetectedAt` is set to the cycle time exactly on present cycles,
whatever the phase. -/
theorem step_motionDetectedAt (cfg : Cfg) (s : WState) (sig : Sig) :
    (step cfg s sig).motionDetectedAt =
      if sig.present then sig.t else s.motionDetectedAt := by
  rcases s with ⟨ph, m⟩
  cases ph <;> cases hp : sig.present <;>
    simp [step, stepW, hp] <;> split_ifs <;> rfl

/-- After a run, `motionDetectedAt` is the time of the last present
signal. -/
theorem run_motionDetectedAt (cfg : Cfg) (l : List Sig) :
    (run cfg l).motionDetectedAt = lastMotionTime l := by
  induction l using List.reverseRecOn with
  | nil => rfl
  | append_singleton l s ih =>
    rw [run_concat, step_motionDetectedAt, lastMotionTime_concat, ih]

/-- A present cycle never ends in the `Watching` phase. -/
theorem step_present_ne_watching (cfg : Cfg) (s : WState) (sig : Sig)
    (h : sig.present = true) : (step cfg s sig).phase ≠ Phase.watching := by
  rcases s with ⟨ph, m⟩
  cases ph <;> simp [step, stepW, h] <;> split_ifs <;> simp

/-- If the machine is watching after a nonempty trace, the last signal was
absent. -/
theorem run_watching_last (cfg : Cfg) (l : List Sig)
    (h : (run cfg l).phase = Phase.watching) :
    l = [] ∨ (sigAt l (l.length - 1)).present = false := by
  induction l using List.reverseRecOn with
  | nil => exact Or.inl rfl
  | append_singleton l s _ =>
    right
    rw [run_concat] at h
    have hp : s.present = false := by
      by_contra hc
      exact step_present_ne_watching cfg (run cfg l) s (by simpa using hc) h
    have hl : (l ++ [s]).length - 1 = l.length := by simp
    rw [hl, sigAt_append_len]
    exact hp

/-! ## Transport of the declarative predicates along append and take -/

theorem runStart_append (l : List Sig) (s : Sig) (i : Nat)
    (h : i < l.length) : runStart (l ++ [s]) i ↔ runStart l i := by
  unfold runStart
  rw [sigAt_append_lt _ _ _ h,
    sigAt_append_lt _ _ _ (lt_of_le_of_lt (Nat.sub_le i 1) h)]
  simp only [List.length_append, List.length_singleton]
  constructor
  · rintro ⟨_, h1, h2⟩; exact ⟨h, h1, h2⟩
  · rintro ⟨_, h1, h2⟩; exact ⟨by omega, h1, h2⟩

theorem confirmedBy_append (cfg : Cfg) (l : List Sig) (s : Sig) (i j : Nat)
    (hj : j < l.length) :
    confirmedBy cfg (l ++ [s]) i j ↔ confirmedBy cfg l i j := by
  unfold confirmedBy
  constructor
  · rintro ⟨h1, h2, _, h4, h5⟩
    have hi : i < l.length := lt_of_le_of_lt h2 hj
    refine ⟨(runStart_append _ _ _ hi).1 h1, h2, hj, ?_, ?_⟩
    · intro k hk hik
      have := h4 k hk hik
      rwa [sigAt_append_lt _ _ _ (lt_of_le_of_lt hk hj)] at this
    · rwa [sigAt_append_lt _ _ _ hj, sigAt_append_lt _ _ _ hi] at h5
  · rintro ⟨h1, h2, _, h4, h5⟩
    have hi : i < l.length := lt_of_le_of_lt h2 hj
    refine ⟨(runStart_append _ _ _ hi).2 h1, h2, by simp; omega, ?_, ?_⟩
    · intro k hk hik
      rw [sigAt_append_lt _ _ _ (lt_of_le_of_lt hk hj)]
      exact h4 k hk hik
    · rwa [sigAt_append_lt _ _ _ hj, sigAt_append_lt _ _ _ hi]

theorem gapBreaks_append (cfg : Cfg) (l : List Sig) (s : Sig) (k : Nat)
    (hk : k < l.length) :
    gapBreaks cfg (l ++ [s]) k ↔ gapBreaks cfg l k := by
  unfold gapBreaks
  rw [sigAt_append_lt _ _ _ hk, lastMotionTime_take_append _ _ _ (le_of_lt hk)]
  simp only [List.length_append, List.length_singleton]
  constructor
  · rintro ⟨_, h1, h2⟩; exact ⟨hk, h1, h2⟩
  · rintro ⟨_, h1, h2⟩; exact ⟨by omega, h1, h2⟩

theorem runStart_take (l : List Sig) (m i : Nat) (him : i < m)
    (hil : i < l.length) : runStart (l.take m) i ↔ runStart l i := by
  unfold runStart
  rw [sigAt_take _ _ _ him,
    sigAt_take _ _ _ (lt_of_le_of_lt (Nat.sub_le i 1) him)]
  simp only [List.length_take]
  constructor
  · rintro ⟨_, h1, h2⟩; exact ⟨hil, h1, h2⟩
  · rintro ⟨_, h1, h2⟩; exact ⟨by omega, h1, h2⟩

theorem confirmedBy_take (cfg : Cfg) (l : List Sig) (m i j : Nat)
    (hjm : j < m) (hjl : j < l.length) :
    confirmedBy cfg (l.take m) i j ↔ confirmedBy cfg l i j := by
  unfold confirmedBy
  constructor
  · rintro ⟨h1, h2, _, h4, h5⟩
    have him : i < m := lt_of_le_of_lt h2 hjm
    have hil : i < l.length := lt_of_le_of_lt h2 hjl
    refine ⟨(runStart_take _ _ _ him hil).1 h1, h2, hjl, ?_, ?_⟩
    · intro k hk hik
      have := h4 k hk hik
      rwa [sigAt_take _ _ _ (lt_of_le_of_lt hk hjm)] at this
    · rwa [sigAt_take _ _ _ hjm, sigAt_take _ _ _ him] at h5
  · rintro ⟨h1, h2, _, h4, h5⟩
    have him : i < m := lt_of_le_of_lt h2 hjm
    have hil : i < l.length := lt_of_le_of_lt h2 hjl
    refine ⟨(runStart_take _ _ _ him hil).2 h1, h2, by simp; omega, ?_, ?_⟩
    · intro k hk hik
      rw [sigAt_take _ _ _ (lt_of_le_of_lt hk hjm)]
      exact h4 k hk hik
    · rwa [sigAt_take _ _ _ hjm, sigAt_take _ _ _ him]

theorem gapBreaks_take (cfg : Cfg) (l : List Sig) (m k : Nat) (hkm : k < m)
    (hkl : k < l.length) :
    gapBreaks cfg (l.take m) k ↔ gapBreaks cfg l k := by
  unfold gapBreaks
  rw [sigAt_take _ _ _ hkm, List.take_take,
    Nat.min_eq_left (le_of_lt hkm)]
  simp only [List.length_take]
  constructor
  · rintro ⟨_, h1, h2⟩; exact ⟨hkl, h1, h2⟩
  · rintro ⟨_, h1, h2⟩; exact ⟨by omega, h1, h2⟩

/-! ## The inductive characterization behind C1 -/

/-- When no unbroken confirmed run exists, every confirmed run already has a
breaking gap after it. -/
theorem break_exists (cfg : Cfg) (l : List Sig)
    (hnal : ¬ aliveRecording cfg l) (i j : Nat) (hj : j < l.length)
    (hconf : confirmedBy cfg l i j) :
    ∃ k, k < l.length ∧ j < k ∧ gapBreaks cfg l k := by
  by_contra hnk
  push_neg at hnk
  exact hnal ⟨i, hconf.1.1, j, hj, hconf, fun k hk hjk => hnk k hk hjk⟩

/-- Two run starts whose runs both reach the end of the trace coincide. -/
theorem run_to_end_start_unique (L : List Sig) (i j : Nat)
    (h1 : runStart L i)
    (hc1 : ∀ k, k < L.length → i ≤ k → (sigAt L k).present = true)
    (h2 : runStart L j)
    (hc2 : ∀ k, k < L.length → j ≤ k → (sigAt L k).present = true) :
    i = j := by
  by_contra hne
  rcases Nat.lt_or_ge i j with hlt | hge
  · rcases h2.2.2 with h0 | h0
    · omega
    · have hp := hc1 (j - 1) (by have := h2.1; omega) (by omega)
      rw [h0] at hp
      simp at hp
  · have hlt : j < i := by omega
    rcases h1.2.2 with h0 | h0
    · omega
    · have hp := hc2 (i - 1) (by have := h1.1; omega) (by omega)
      rw [h0] at hp
      simp at hp

/-- An absent final signal admits no confirming run. -/
theorem no_confirmingRun_absent (cfg : Cfg) (l : List Sig) (s : Sig)
    (hs : s.present = false) (i : Nat) :
    ¬ confirmingRun cfg (l ++ [s]) i := by
  rintro ⟨⟨hilen, _, _⟩, hall, _, _⟩
  have hp := hall l.length (by simp) (by simp at hilen; omega)
  rw [sigAt_append_len, hs] at hp
  simp at hp

/-- An absent final signal admits no confirmed run ending at it. -/
theorem no_confirmedBy_end_absent (cfg : Cfg) (l : List Sig) (s : Sig)
    (hs : s.present = false) (i : Nat) :
    ¬ confirmedBy cfg (l ++ [s]) i l.length := by
  rintro ⟨_, hij, _, hall, _⟩
  have hp := hall l.length (le_refl _) hij
  rw [sigAt_append_len, hs] at hp
  simp at hp

/-- If no unbroken confirmed run exists and the new cycle admits no
confirmed run ending at it, extending the trace still has none. -/
theorem not_alive_extend (cfg : Cfg) (l : List Sig) (s : Sig)
    (hnal : ¬ aliveRecording cfg l)
    (hend : ∀ i, ¬ confirmedBy cfg (l ++ [s]) i l.length) :
    ¬ aliveRecording cfg (l ++ [s]) := by
  rintro ⟨i, hi, j, hj, hconf, hnob⟩
  rcases Nat.lt_or_ge j l.length with hjl | hjge
  · have hconf2 := (confirmedBy_append cfg l s i j hjl).1 hconf
    obtain ⟨k, hk, hjk, hbrk⟩ := break_exists cfg l hnal i j hjl hconf2
    exact hnob k (by simp; omega) hjk ((gapBreaks_append cfg l s k hk).2 hbrk)
  · have hj2 : j = l.length := by simp at hj; omega
    exact hend i (hj2 ▸ hconf)

/-- An absent signal observing an over-dropoff gap kills every unbroken
confirmed run. -/
theorem not_alive_gapkill (cfg : Cfg) (l : List Sig) (s : Sig)
    (hs : s.present = false)
    (hgap : cfg.dropoff < s.t - lastMotionTime l) :
    ¬ aliveRecording cfg (l ++ [s]) := by
  rintro ⟨i, hi, j, hj, hconf, hnob⟩
  have hjl : j < l.length := by
    rcases Nat.lt_or_ge j l.length with h | h
    · exact h
    · exfalso
      have hj2 : j = l.length := by simp at hj; omega
      exact no_confirmedBy_end_absent cfg l s hs i (hj2 ▸ hconf)
  refine hnob l.length (by simp) hjl ?_
  refine ⟨by simp, by rw [sigAt_append_len]; exact hs, ?_⟩
  rw [sigAt_append_len]
  rw [lastMotionTime_take_append _ _ _ (le_refl _), List.take_length]
  exact hgap

/-- A present or sub-dropoff new cycle keeps an unbroken confirmed run
unbroken. -/
theorem alive_extend (cfg : Cfg) (l : List Sig) (s : Sig)
    (halive : aliveRecording cfg l)
    (hs : s.present = true ∨ ¬ cfg.dropoff < s.t - lastMotionTime l) :
    aliveRecording cfg (l ++ [s]) := by
  obtain ⟨i, hi, j, hj, hconf, hnob⟩ := halive
  refine ⟨i, by simp; omega, j, by simp; omega,
    (confirmedBy_append cfg l s i j hj).2 hconf, ?_⟩
  intro k hk hjk hbrk
  rcases Nat.lt_or_ge k l.length with hkl | hkge
  · exact hnob k hkl hjk ((gapBreaks_append cfg l s k hkl).1 hbrk)
  · have hk2 : k = l.length := by simp at hk; omega
    subst hk2
    obtain ⟨_, hb1, hb2⟩ := hbrk
    rw [sigAt_append_len] at hb1 hb2
    rw [lastMotionTime_take_append _ _ _ (le_refl _), List.take_length] at hb2
    rcases hs with hs | hs
    · rw [hs] at hb1; simp at hb1
    · exact hs hb2

/-- While an unbroken confirmed run is alive, no new signal can produce a
confirming (not yet confirmed) run: its start would either lie inside a
present stretch or postdate an episode that was alive when it started. -/
theorem alive_no_confirmingRun (cfg : Cfg) (l : List Sig) (s : Sig)
    (halive : aliveRecording cfg l) (i : Nat) :
    ¬ confirmingRun cfg (l ++ [s]) i := by
  obtain ⟨i0, hi0, j0, hj0, hconf0, hnob0⟩ := halive
  rintro ⟨hrs, hall, hbound, hnal⟩
  have hilen : i ≤ l.length := by have := hrs.1; simp at this; omega
  rcases Nat.lt_or_ge j0 i with hj0i | hij0
  · -- the old episode was alive when the new run started
    apply hnal
    rw [List.take_append_of_le_length hilen]
    have hlen : (l.take i).length = i := by
      rw [List.length_take]; omega
    have hij01 : i0 ≤ j0 := hconf0.2.1
    refine ⟨i0, ?_, j0, ?_, ?_, ?_⟩
    · rw [hlen]; omega
    · rw [hlen]; omega
    · exact (confirmedBy_take cfg l i i0 j0 hj0i hj0).2 hconf0
    · intro k hk hjk hbrk
      rw [hlen] at hk
      exact hnob0 k (by omega) hjk
        ((gapBreaks_take cfg l i k hk (by omega)).1 hbrk)
  · -- the new run start lies inside or before the old confirmed stretch
    rcases Nat.lt_trichotomy i i0 with hlt | heq | hgt
    · -- i < i0: the old run start i0 had an absent predecessor inside the
      -- new all-present stretch
      rcases hconf0.1.2.2 with h0 | h0
      · omega
      · have hp := hall (i0 - 1) (by simp; omega) (by omega)
        rw [sigAt_append_lt _ _ _ (by omega)] at hp
        rw [h0] at hp
        simp at hp
    · -- i = i0: the confirmed stretch contradicts not-yet-confirmed
      subst heq
      have hii : i < j0 := by
        rcases Nat.lt_or_ge i j0 with h | h
        · exact h
        · exfalso
          have : j0 = i := by omega
          subst this
          have := hconf0.2.2.2.2
          omega
      have hle := hbound j0 (by simp; omega) hii
      rw [sigAt_append_lt _ _ _ hj0, sigAt_append_lt _ _ _ (by omega)] at hle
      have := hconf0.2.2.2.2
      omega
    · -- i0 < i: the new run start i had an absent predecessor inside the
      -- old all-present stretch
      rcases hrs.2.2 with h0 | h0
      · omega
      · have hp := hconf0.2.2.2.1 (i - 1) (by omega) (by omega)
        rw [sigAt_append_lt _ _ _ (by omega)] at h0
        rw [h0] at hp
        simp at hp

/-- A present new signal within the confirm threshold extends a confirming
run. -/
theorem confirmingRun_extend (cfg : Cfg) (l : List Sig) (s : Sig) (i : Nat)
    (hcr : confirmingRun cfg l i) (hs : s.present = true)
    (hle : s.t - (sigAt l i).t ≤ cfg.confirm) :
    confirmingRun cfg (l ++ [s]) i := by
  obtain ⟨hrs, hall, hbound, hnal⟩ := hcr
  have hil : i < l.length := hrs.1
  refine ⟨(runStart_append _ _ _ hil).2 hrs, ?_, ?_, ?_⟩
  · intro k hk hik
    rcases Nat.lt_or_ge k l.length with hkl | hkge
    · rw [sigAt_append_lt _ _ _ hkl]
      exact hall k hkl hik
    · have hk2 : k = l.length := by simp at hk; omega
      subst hk2
      rw [sigAt_append_len]
      exact hs
  · intro k hk hik
    rw [sigAt_append_lt _ _ _ hil]
    rcases Nat.lt_or_ge k l.length with hkl | hkge
    · rw [sigAt_append_lt _ _ _ hkl]
      exact hbound k hkl hik
    · have hk2 : k = l.length := by simp at hk; omega
      subst hk2
      rw [sigAt_append_len]
      exact hle
  · rw [List.take_append_of_le_length (le_of_lt hil)]
    exact hnal

/-- A present new signal beyond the confirm threshold turns a confirming
run into an unbroken confirmed run. -/
theorem alive_of_confirm (cfg : Cfg) (l : List Sig) (s : Sig) (i : Nat)
    (hcr : confirmingRun cfg l i) (hs : s.present = true)
    (hgt : cfg.confirm < s.t - (sigAt l i).t) :
    aliveRecording cfg (l ++ [s]) := by
  obtain ⟨hrs, hall, _, _⟩ := hcr
  have hil : i < l.length := hrs.1
  refine ⟨i, by simp; omega, l.length, by simp, ?_, ?_⟩
  · refine ⟨(runStart_append _ _ _ hil).2 hrs, le_of_lt hil, by simp, ?_, ?_⟩
    · intro k hk hik
      rcases Nat.lt_or_ge k l.length with hkl | hkge
      · rw [sigAt_append_lt _ _ _ hkl]
        exact hall k hkl hik
      · have hk2 : k = l.length := by omega
        subst hk2
        rw [sigAt_append_len]
        exact hs
    · rw [sigAt_append_len, sigAt_append_lt _ _ _ hil]
      exact hgt
  · intro k hk hjk
    simp at hk
    omega

/-- A present signal after an absent one (or at the start) begins a fresh
confirming run when no unbroken confirmed run is alive. -/
theorem confirmingRun_new (cfg : Cfg) (l : List Sig) (s : Sig)
    (hs : s.present = true)
    (hlast : l = [] ∨ (sigAt l (l.length - 1)).present = false)
    (hnal : ¬ aliveRecording cfg l) :
    confirmingRun cfg (l ++ [s]) l.length := by
  refine ⟨⟨by simp, by rw [sigAt_append_len]; exact hs, ?_⟩, ?_, ?_, ?_⟩
  · by_cases hl : l = []
    · subst hl; exact Or.inl rfl
    · right
      have hlen : 0 < l.length := List.length_pos.2 hl
      rw [sigAt_append_lt _ _ _ (by omega)]
      rcases hlast with h | h
      · exact absurd h hl
      · exact h
  · intro k hk hik
    have hk2 : k = l.length := by simp at hk; omega
    subst hk2
    rw [sigAt_append_len]
    exact hs
  · intro k hk hik
    have : k = l.length := by simp at hk; omega
    omega
  · rw [List.take_append_of_le_length (le_refl _), List.take_length]
    exact hnal

/-- Full characterization of the reachable phase after any signal trace:
the machine is recording iff an unbroken confirmed run exists, and is
confirming (`MotionDetected`) with `motionBegan = mb` iff the trace ends in
a not-yet-confirmed run whose start time is `mb`. -/
theorem phase_spec (cfg : Cfg) (l : List Sig) :
    ((∃ rb, (run cfg l).phase = Phase.recording rb) ↔ aliveRecording cfg l) ∧
    (∀ mb, (run cfg l).phase = Phase.motionDetected mb ↔
      ∃ i, confirmingRun cfg l i ∧ mb = (sigAt l i).t) := by
  induction l using List.reverseRecOn with
  | nil =>
    constructor
    · constructor
      · rintro ⟨rb, h⟩
        simp [run, init] at h
      · rintro ⟨i, hi, j, hj, _, _⟩
        simp at hi
    · intro mb
      constructor
      · intro h
        simp [run, init] at h
      · rintro ⟨i, ⟨⟨hi, _, _⟩, _, _, _⟩, _⟩
        simp at hi
  | append_singleton l s ih =>
    obtain ⟨ihrec, ihmd⟩ := ih
    rw [run_concat]
    rcases hph : (run cfg l).phase with _ | mb0 | rb0
    · -- the machine was watching
      have hnal : ¬ aliveRecording cfg l := by
        intro ha
        obtain ⟨rb, h⟩ := ihrec.2 ha
        rw [hph] at h
        simp at h
      have hlast := run_watching_last cfg l hph
      have heval := step_watching_eq cfg (run cfg l) s hph
      cases hs : s.present with
      | true =>
        have hstep : step cfg (run cfg l) s = ⟨Phase.motionDetected s.t, s.t⟩ := by
          rw [heval, hs]; simp
        rw [hstep]
        have hnew := confirmingRun_new cfg l s hs hlast hnal
        constructor
        · refine iff_of_false (by rintro ⟨rb, h⟩; simp at h) ?_
          apply not_alive_extend cfg l s hnal
          intro i hconf
          have hieq : i = l.length :=
            run_to_end_start_unique (l ++ [s]) i l.length hconf.1
              (fun k hk hik => hconf.2.2.2.1 k (by simp at hk; omega) hik)
              hnew.1 hnew.2.1
          subst hieq
          have hthr := hconf.2.2.2.2
          rw [sigAt_append_len] at hthr
          omega
        · intro mb
          constructor
          · intro h
            simp at h
            refine ⟨l.length, hnew, ?_⟩
            rw [sigAt_append_len]
            omega
          · rintro ⟨i, hcr, hmb⟩
            have hieq : i = l.length :=
              run_to_end_start_unique (l ++ [s]) i l.length hcr.1 hcr.2.1
                hnew.1 hnew.2.1
            subst hieq
            rw [sigAt_append_len] at hmb
            simp [hmb]
      | false =>
        have hstep : step cfg (run cfg l) s =
            ⟨Phase.watching, (run cfg l).motionDetectedAt⟩ := by
          rw [heval, hs]; simp
        rw [hstep]
        constructor
        · refine iff_of_false (by rintro ⟨rb, h⟩; simp at h)
            (not_alive_extend cfg l s hnal (no_confirmedBy_end_absent cfg l s hs))
        · intro mb
          refine iff_of_false (by simp) ?_
          rintro ⟨i, hcr, _⟩
          exact no_confirmingRun_absent cfg l s hs i hcr
    · -- the machine was confirming
      have hnal : ¬ aliveRecording cfg l := by
        intro ha
        obtain ⟨rb, h⟩ := ihrec.2 ha
        rw [hph] at h
        simp at h
      obtain ⟨i0, hcr0, hmb0⟩ := (ihmd mb0).1 hph
      have heval := step_md_eq cfg (run cfg l) s mb0 hph
      have hi0len : i0 < l.length := hcr0.1.1
      cases hs : s.present with
      | false =>
        have hstep : step cfg (run cfg l) s =
            ⟨Phase.watching, (run cfg l).motionDetectedAt⟩ := by
          rw [heval, hs]; simp
        rw [hstep]
        constructor
        · refine iff_of_false (by rintro ⟨rb, h⟩; simp at h)
            (not_alive_extend cfg l s hnal (no_confirmedBy_end_absent cfg l s hs))
        · intro mb
          refine iff_of_false (by simp) ?_
          rintro ⟨i, hcr, _⟩
          exact no_confirmingRun_absent cfg l s hs i hcr
      | true =>
        by_cases hexc : cfg.confirm < s.t - mb0
        · have hstep : step cfg (run cfg l) s = ⟨Phase.recording s.t, s.t⟩ := by
            rw [heval, hs]; simp [hexc]
          rw [hstep]
          constructor
          · refine iff_of_true ⟨s.t, rfl⟩ ?_
            exact alive_of_confirm cfg l s i0 hcr0 hs (hmb0 ▸ hexc)
          · intro mb
            refine iff_of_false (by simp) ?_
            rintro ⟨i, hcr, _⟩
            have hcov0 : ∀ k, k < (l ++ [s]).length → i0 ≤ k →
                (sigAt (l ++ [s]) k).present = true := by
              intro k hk hik
              rcases Nat.lt_or_ge k l.length with hkl | hkge
              · rw [sigAt_append_lt _ _ _ hkl]
                exact hcr0.2.1 k hkl hik
              · have hk2 : k = l.length := by simp at hk; omega
                subst hk2
                rw [sigAt_append_len]
                exact hs
            have hrs0 : runStart (l ++ [s]) i0 :=
              (runStart_append _ _ _ hi0len).2 hcr0.1
            have hieq : i = i0 :=
              run_to_end_start_unique (l ++ [s]) i i0 hcr.1 hcr.2.1 hrs0 hcov0
            subst hieq
            have hb := hcr.2.2.1 l.length (by simp) (by omega)
            rw [sigAt_append_len, sigAt_append_lt _ _ _ hi0len, ← hmb0] at hb
            omega
        · have hstep : step cfg (run cfg l) s =
              ⟨Phase.motionDetected mb0, s.t⟩ := by
            rw [heval, hs]; simp [hexc]
          rw [hstep]
          have hext : confirmingRun cfg (l ++ [s]) i0 :=
            confirmingRun_extend cfg l s i0 hcr0 hs (by rw [← hmb0]; omega)
          constructor
          · refine iff_of_false (by rintro ⟨rb, h⟩; simp at h) ?_
            apply not_alive_extend cfg l s hnal
            intro i hconf
            have hieq : i = i0 :=
              run_to_end_start_unique (l ++ [s]) i i0 hconf.1
                (fun k hk hik => hconf.2.2.2.1 k (by simp at hk; omega) hik)
                hext.1 hext.2.1
            subst hieq
            have hb := hconf.2.2.2.2
            rw [sigAt_append_len, sigAt_append_lt _ _ _ hi0len, ← hmb0] at hb
            omega
          · intro mb
            constructor
            · intro h
              simp at h
              refine ⟨i0, hext, ?_⟩
              rw [sigAt_append_lt _ _ _ hi0len, ← hmb0]
              omega
            · rintro ⟨i, hcr, hmb⟩
              have hieq : i = i0 :=
                run_to_end_start_unique (l ++ [s]) i i0 hcr.1 hcr.2.1
                  hext.1 hext.2.1
              subst hieq
              rw [sigAt_append_lt _ _ _ hi0len, ← hmb0] at hmb
              simp [hmb]
    · -- the machine was recording
      have halive : aliveRecording cfg l := ihrec.1 ⟨rb0, hph⟩
      have heval := step_rec_eq cfg (run cfg l) s rb0 hph
      have hmda := run_motionDetectedAt cfg l
      cases hs : s.present with
      | true =>
        have hstep : step cfg (run cfg l) s = ⟨Phase.recording rb0, s.t⟩ := by
          rw [heval, hs]; simp
        rw [hstep]
        constructor
        · exact iff_of_true ⟨rb0, rfl⟩ (alive_extend cfg l s halive (Or.inl hs))
        · intro mb
          refine iff_of_false (by simp) ?_
          rintro ⟨i, hcr, _⟩
          exact alive_no_confirmingRun cfg l s halive i hcr
      | false =>
        by_cases hdrop : cfg.dropoff < s.t - (run cfg l).motionDetectedAt
        · have hstep : step cfg (run cfg l) s =
              ⟨Phase.watching, (run cfg l).motionDetectedAt⟩ := by
            rw [heval, hs]; simp [hdrop]
          rw [hstep]
          constructor
          · refine iff_of_false (by rintro ⟨rb, h⟩; simp at h) ?_
            exact not_alive_gapkill cfg l s hs (by rw [← hmda]; exact hdrop)
          · intro mb
            refine iff_of_false (by simp) ?_
            rintro ⟨i, hcr, _⟩
            exact no_confirmingRun_absent cfg l s hs i hcr
        · have hstep : step cfg (run cfg l) s =
              ⟨Phase.recording rb0, (run cfg l).motionDetectedAt⟩ := by
            rw [heval, hs]; simp [hdrop]
          rw [hstep]
          constructor
          · exact iff_of_true ⟨rb0, rfl⟩
              (alive_extend cfg l s halive (Or.inr (by rw [← hmda]; exact hdrop)))
          · intro mb
            refine iff_of_false (by simp) ?_
            rintro ⟨i, hcr, _⟩
            exact alive_no_confirmingRun cfg l s halive i hcr

/-! ## Lemmas about the motion evaluator -/

/-- The `FindMotion` loop computes the any/filter of the minimum-area
policy. -/
theorem findMotionLoop_eq (cs : List Contour) :
    findMotionLoop cs = (cs.any survives, cs.filter survives) := by
  induction cs with
  | nil => rfl
  | cons c cs ih =>
    simp only [findMotionLoop, ih, List.any_cons, List.filter_cons, survives]
    by_cases hc : c.area < MinimumArea
    · simp [hc]
    · simp [hc]

/-- `lastMotionTime` is bounded by any bound on the present times. -/
theorem lastMotionTime_le (l : List Sig) (T : Nat) (h : ∀ x ∈ l, x.t ≤ T) :
    lastMotionTime l ≤ T := by
  induction l using List.reverseRecOn with
  | nil => exact Nat.zero_le T
  | append_singleton l s ih =>
    rw [lastMotionTime_concat]
    cases hp : s.present
    · simp only [Bool.false_eq_true, if_false]
      exact ih fun x hx => h x (List.mem_append_left _ hx)
    · simp only [if_true]
      exact h s (by simp)

/-! ## The claims -/

/-- C1: for every finite sequence of per-cycle motion signals fed to the
state machine started in Watching, the machine is in the Recording phase
after the sequence if and only if the sequence contains a run of
`present=true` signals whose confirming sub-run lasted longer than the
confirm threshold and that is still unbroken by dropoff: no later cycle
observed a motion-free gap longer than the dropoff threshold. -/
theorem recording_iff_confirmed_unbroken (cfg : Cfg) (l : List Sig) :
    (∃ rb, (run cfg l).phase = Phase.recording rb) ↔ aliveRecording cfg l :=
  (phase_spec cfg l).1

/-- C2: evaluating the code at the failing input.  A failed append during
Recording makes the kernel return `w.BackToWatching` with the session
closed (first conjunct), but `main`'s driver reaches `log.Fatal` on the
returned error, so the process terminates instead of the watch loop
continuing (second conjunct; the input confirms motion at `t = 0` and
`t = 2500` and the append of the confirming frame fails). -/
theorem write_failure_kills_process :
    RecordingLoop ⟨2500⟩
        [ReadItem.frame ⟨2, false, [⟨0, 3500⟩], 2600, true, false⟩] =
      ⟨[Ev.readFrame 2, Ev.closeSession], KNext.backToWatching,
        some Err.errWriteSink, ⟨2600⟩, []⟩ ∧
    mainRun [ReadItem.frame ⟨0, false, [⟨0, 3500⟩], 0, true, true⟩,
        ReadItem.frame ⟨1, false, [⟨0, 3500⟩], 2500, true, false⟩] =
      ProcRes.fatal Err.errWriteSink
        [Ev.readFrame 0, Ev.readFrame 1, Ev.openSession 2500, Ev.closeSession]
        [] := by
  decide

/-- C3 (counterexample): the motion evaluation step is not free of
timestamp bookkeeping — with `motionDetectedAt = 0`, a frame at time 5 with
one surviving contour makes `FindMotion` return `motionDetectedAt = 5`. -/
theorem findMotion_updates_timestamp :
    (FindMotion 0 5 [⟨0, 3000⟩]).1 = 5 ∧
    ¬ (FindMotion 0 5 [⟨0, 3000⟩]).1 = 0 := by
  decide

/-- C3 (amended): the motion evaluation step reduces the candidates to the
signal and its filtered regions, and additionally performs the timestamp
bookkeeping itself: it sets `motionDetectedAt` to the current time exactly
when the signal is present; no other state is produced. -/
theorem findMotion_effect :
    ∀ (mdAt now : Nat) (cs : List Contour),
      FindMotion mdAt now cs =
        (if cs.any survives then now else mdAt,
          cs.any survives, cs.filter survives) := by
  intro mdAt now cs
  simp [FindMotion, findMotionLoop_eq]

/-- C4: `motionDetectedAt` (the spec's `lastMotionAt`) is updated to the
cycle time on exactly the present cycles, in every phase; it is never reset
by a transition into Watching; and it is monotonically non-decreasing along
any run whose cycle times are monotone. -/
theorem lastMotionAt_policy :
    (∀ (cfg : Cfg) (s : WState) (sig : Sig),
        (step cfg s sig).motionDetectedAt =
          if sig.present then sig.t else s.motionDetectedAt) ∧
    (∀ (cfg : Cfg) (s : WState) (sig : Sig),
        (step cfg s sig).phase = Phase.watching →
          (step cfg s sig).motionDetectedAt = s.motionDetectedAt) ∧
    (∀ (cfg : Cfg) (l : List Sig) (sig : Sig),
        (∀ x ∈ l, x.t ≤ sig.t) →
          (run cfg l).motionDetectedAt ≤
            (run cfg (l ++ [sig])).motionDetectedAt) := by
  refine ⟨step_motionDetectedAt, ?_, ?_⟩
  · intro cfg s sig h
    rw [step_motionDetectedAt]
    cases hp : sig.present
    · simp
    · exact absurd h (step_present_ne_watching cfg s sig hp)
  · intro cfg l sig h
    rw [run_concat, step_motionDetectedAt]
    cases hp : sig.present
    · rw [if_neg (by simp)]
    · rw [if_pos rfl, run_motionDetectedAt]
      exact lastMotionTime_le l sig.t h

/-- C4 witness. -/
theorem lastMotionAt_policy_witness :
    ((step defaultCfg ⟨Phase.motionDetected 0, 0⟩ ⟨5, false⟩).phase =
        Phase.watching ∧
      (step defaultCfg ⟨Phase.motionDetected 0, 0⟩ ⟨5, false⟩).motionDetectedAt
        = 0) ∧
    ((∀ x ∈ [(⟨3, true⟩ : Sig)], x.t ≤ 5) ∧
      (run defaultCfg [⟨3, true⟩]).motionDetectedAt ≤
        (run defaultCfg ([⟨3, true⟩] ++ [⟨5, false⟩])).motionDetectedAt) :=
  ⟨⟨by decide,
      lastMotionAt_policy.2.1 defaultCfg ⟨Phase.motionDetected 0, 0⟩ ⟨5, false⟩
        (by decide)⟩,
    ⟨by decide,
      lastMotionAt_policy.2.2 defaultCfg [⟨3, true⟩] ⟨5, false⟩ (by decide)⟩⟩

/-- C5: the per-cycle signal is present iff at least one candidate has area
at least `MinimumArea`; the evaluation is unchanged when the sub-minimum
candidates are removed, and so is the state machine transition computed
from it — sub-minimum regions never influence the transition decision. -/
theorem minimum_area_policy :
    ∀ (mdAt now : Nat) (cs : List Contour),
      ((FindMotion mdAt now cs).2.1 = true ↔
        ∃ c ∈ cs, ¬ c.area < MinimumArea) ∧
      FindMotion mdAt now cs = FindMotion mdAt now (cs.filter survives) ∧
      ∀ (cfg : Cfg) (s : WState),
        step cfg s ⟨now, (FindMotion s.motionDetectedAt now cs).2.1⟩ =
          step cfg s
            ⟨now, (FindMotion s.motionDetectedAt now (cs.filter survives)).2.1⟩ := by
  have hfm : ∀ (mdAt now : Nat) (cs : List Contour),
      FindMotion mdAt now cs = FindMotion mdAt now (cs.filter survives) := by
    intro mdAt now cs
    simp only [FindMotion, findMotionLoop_eq, List.any_filter,
      List.filter_filter, Bool.and_self]
  intro mdAt now cs
  refine ⟨?_, hfm mdAt now cs, ?_⟩
  · simp [FindMotion, findMotionLoop_eq, List.any_eq_true, survives]
  · intro cfg s
    rw [hfm s.motionDetectedAt now cs]

/-- C6: `Watcher.Read` behaves as the spec's reading discipline: it
silently skips empty-but-present frames and reads again, returns the first
non-empty frame, treats only a device failure as end of stream — and an
empty frame never reaches the pipeline. -/
theorem read_skips_empty_frames :
    ∀ input : List ReadItem,
      Read input = ReadSpec input ∧
      (∀ f rest, Read input = ReadRes.frameOk f rest → f.isEmpty = false) := by
  intro input
  induction input with
  | nil =>
    refine ⟨rfl, ?_⟩
    intro f rest h
    simp [Read] at h
  | cons it rest ih =>
    cases it with
    | readFail =>
      refine ⟨?_, ?_⟩
      · simp [Read, ReadSpec, emptyItem]
      · intro f r h
        simp [Read] at h
    | frame g =>
      by_cases hg : g.isEmpty = true
      · have hr : Read (ReadItem.frame g :: rest) = Read rest := by
          simp [Read, hg]
        refine ⟨?_, ?_⟩
        · rw [hr, ih.1]
          simp [ReadSpec, List.dropWhile_cons, emptyItem, hg]
        · intro f r h
          rw [hr] at h
          exact ih.2 f r h
      · have hr : Read (ReadItem.frame g :: rest) = ReadRes.frameOk g rest := by
          simp [Read, hg]
        refine ⟨?_, ?_⟩
        · rw [hr]
          simp [ReadSpec, List.dropWhile_cons, emptyItem, hg]
        · intro f r h
          rw [hr] at h
          cases h
          simpa using hg

/-- C6 witness. -/
theorem read_skips_empty_frames_witness :
    Read [ReadItem.frame ⟨7, true, [], 0, true, true⟩,
        ReadItem.frame ⟨8, false, [], 1, true, true⟩] =
      ReadRes.frameOk ⟨8, false, [], 1, true, true⟩ [] ∧
    (⟨8, false, [], 1, true, true⟩ : Frame).isEmpty = false :=
  ⟨by decide,
    (read_skips_empty_frames
        [ReadItem.frame ⟨7, true, [], 0, true, true⟩,
          ReadItem.frame ⟨8, false, [], 1, true, true⟩]).2
      ⟨8, false, [], 1, true, true⟩ [] (by decide)⟩

/-- C7: a device read failure terminates the loop in every phase: each
kernel returns a nil continuation with `ErrReadDevice` and does not touch
the input past the failed read, and the driver reaches `log.Fatal`,
surfacing the error; no further frames are processed. -/
theorem read_failure_terminates :
    ∀ (input rest : List ReadItem), Read input = ReadRes.devErr rest →
      (∀ st : ESt, Watching st input =
          ⟨[], KNext.noKernel, some Err.errReadDevice, st, rest⟩) ∧
      (∀ (st : ESt) (mb : Nat), MotionDetected st mb input =
          ⟨[], KNext.noKernel, some Err.errReadDevice, st, rest⟩) ∧
      (∀ st : ESt, RecordingLoop st input =
          ⟨[Ev.closeSession], KNext.noKernel, some Err.errReadDevice, st, rest⟩) ∧
      (∀ (fuel : Nat) (st : ESt),
          drive (fuel + 1) KNext.watchingNext st input =
            ProcRes.fatal Err.errReadDevice [] rest) ∧
      (∀ (fuel : Nat) (st : ESt) (mb : Nat),
          drive (fuel + 1) (KNext.motionNext mb) st input =
            ProcRes.fatal Err.errReadDevice [] rest) := by
  intro input rest h
  obtain ⟨n, hn⟩ : ∃ n, input.length = n + 1 := by
    cases input with
    | nil => simp [Read] at h
    | cons a t => exact ⟨t.length, by simp⟩
  have hw : ∀ st : ESt, Watching st input =
      ⟨[], KNext.noKernel, some Err.errReadDevice, st, rest⟩ := by
    intro st
    rw [Watching, hn]
    simp only [WatchingGo]
    rw [h]
  have hm : ∀ (st : ESt) (mb : Nat), MotionDetected st mb input =
      ⟨[], KNext.noKernel, some Err.errReadDevice, st, rest⟩ := by
    intro st mb
    rw [MotionDetected, hn]
    simp only [MotionDetectedGo]
    rw [h]
  refine ⟨hw, hm, ?_, ?_, ?_⟩
  · intro st
    rw [RecordingLoop, hn]
    simp only [RecordingLoopGo]
    rw [h]
  · intro fuel st
    simp only [drive]
    rw [hw st]
  · intro fuel st mb
    simp only [drive]
    rw [hm st mb]

/-- C7 witness. -/
theorem read_failure_terminates_witness :
    Read [ReadItem.readFail, ReadItem.frame ⟨3, false, [], 9, true, true⟩] =
      ReadRes.devErr [ReadItem.frame ⟨3, false, [], 9, true, true⟩] ∧
    drive 1 KNext.watchingNext ⟨0⟩
        [ReadItem.readFail, ReadItem.frame ⟨3, false, [], 9, true, true⟩] =
      ProcRes.fatal Err.errReadDevice []
        [ReadItem.frame ⟨3, false, [], 9, true, true⟩] :=
  ⟨by decide, ((read_failure_terminates _ _ (by decide)).2.2.2.1 0 ⟨0⟩)⟩

/-- C8: the recording filename is a deterministic function of the session
start time: the layout rendering (sortable date-time plus timezone
abbreviation) followed by the `.mp4` container extension; equal start times
give equal filenames. -/
theorem recordingFilename_deterministic :
    (∀ t : GoTime, recordingFilename t = formatFilenameLayout t ++ ".mp4") ∧
    recordingFilename ⟨2024, 3, 9, 15, 4, 5, "MST"⟩ =
      "2024-03-09-150405-MST.mp4" ∧
    ∀ t1 t2 : GoTime, t1 = t2 →
      recordingFilename t1 = recordingFilename t2 := by
  refine ⟨fun t => rfl, by decide, ?_⟩
  intro t1 t2 h
  rw [h]

/-- C8 witness. -/
theorem recordingFilename_deterministic_witness :
    ((⟨2024, 3, 9, 15, 4, 5, "MST"⟩ : GoTime) = ⟨2024, 3, 9, 15, 4, 5, "MST"⟩) ∧
    recordingFilename ⟨2024, 3, 9, 15, 4, 5, "MST"⟩ =
      recordingFilename ⟨2024, 3, 9, 15, 4, 5, "MST"⟩ :=
  ⟨rfl, recordingFilename_deterministic.2.2 _ _ rfl⟩

/-- C9 (counterexample): after a single present signal the machine is in
the Confirming phase, and its next cycle runs with no tick wait — contrary
to the claim that every Watching/Confirming cycle waits for the tick. -/
theorem confirming_cycle_runs_without_tick :
    (run defaultCfg [⟨0, true⟩]).phase = Phase.motionDetected 0 ∧
    (stepW defaultCfg (run defaultCfg [⟨0, true⟩]) ⟨200, true⟩).2 = false := by
  decide

/-- C9 (amended): the loop waits for the fixed tick exactly after a
Watching cycle that saw no motion; the Watching cycle that detects motion
and all Confirming and Recording cycles run back-to-back with no tick
wait. -/
theorem tick_wait_iff_watching_idle :
    ∀ (cfg : Cfg) (s : WState) (sig : Sig),
      (stepW cfg s sig).2 = true ↔
        (s.phase = Phase.watching ∧ sig.present = false) := by
  intro cfg s sig
  rcases s with ⟨ph, m⟩
  cases ph <;> cases hp : sig.present <;>
    simp [stepW, hp] <;> split_ifs <;> simp

/-- C10: on entry to Recording, the session is opened for the entry time
and the confirming frame (the current image, read during Confirming) is
appended to it before anything else — in particular before any new frame is
read, so the first recorded frame is the confirming frame. -/
theorem recording_entry_appends_confirming_frame :
    ∀ (st : ESt) (f : Frame) (input : List ReadItem),
      f.openOk = true → f.writeOk = true →
      ∃ tl, (Recording st f input).events =
        Ev.openSession f.t :: Ev.writeFrame f.id :: tl := by
  intro st f input h1 h2
  refine ⟨(RecordingLoop st input).events, ?_⟩
  simp [Recording, h1, h2]

/-- C10 witness. -/
theorem recording_entry_appends_confirming_frame_witness :
    ((⟨9, false, [], 2500, true, true⟩ : Frame).openOk = true) ∧
    ((⟨9, false, [], 2500, true, true⟩ : Frame).writeOk = true) ∧
    ∃ tl, (Recording ⟨2500⟩ ⟨9, false, [], 2500, true, true⟩ []).events =
      Ev.openSession 2500 :: Ev.writeFrame 9 :: tl :=
  ⟨rfl, rfl,
    recording_entry_appends_confirming_frame ⟨2500⟩ _ [] rfl rfl⟩

/-- Sanity check, spec section 8 example: with the default thresholds and a
200ms tick, 3s of motion followed by a 1s gap followed by 1s of motion
enters Recording at the cycle at 2.2s, bridges the gap, and is still in
Recording at the end — on both sides of the C1 equivalence. -/
theorem specExample_gap_bridged :
    (run defaultCfg [⟨0, true⟩,
      ⟨200, true⟩,
      ⟨400, true⟩,
      ⟨600, true⟩,
      ⟨800, true⟩,
      ⟨1000, true⟩,
      ⟨1200, true⟩,
      ⟨1400, true⟩,
      ⟨1600, true⟩,
      ⟨1800, true⟩,
      ⟨2000, true⟩,
      ⟨2200, true⟩,
      ⟨2400, true⟩,
      ⟨2600, true⟩,
      ⟨2800, true⟩,
      ⟨3000, false⟩,
      ⟨3200, false⟩,
      ⟨3400, false⟩,
      ⟨3600, false⟩,
      ⟨3800, false⟩,
      ⟨4000, true⟩,
      ⟨4200, true⟩,
      ⟨4400, true⟩,
      ⟨4600, true⟩,
      ⟨4800, true⟩]).phase = Phase.recording 2200 ∧
    aliveRecording defaultCfg [⟨0, true⟩,
      ⟨200, true⟩,
      ⟨400, true⟩,
      ⟨600, true⟩,
      ⟨800, true⟩,
      ⟨1000, true⟩,
      ⟨1200, true⟩,
      ⟨1400, true⟩,
      ⟨1600, true⟩,
      ⟨1800, true⟩,
      ⟨2000, true⟩,
      ⟨2200, true⟩,
      ⟨2400, true⟩,
      ⟨2600, true⟩,
      ⟨2800, true⟩,
      ⟨3000, false⟩,
      ⟨3200, false⟩,
      ⟨3400, false⟩,
      ⟨3600, false⟩,
      ⟨3800, false⟩,
      ⟨4000, true⟩,
      ⟨4200, true⟩,
      ⟨4400, true⟩,
      ⟨4600, true⟩,
      ⟨4800, true⟩] := by
  constructor <;> decide

/-- Sanity check, spec section 8 example: 3s of motion followed by 3s of
silence ends back in Watching (the recording ends once the gap exceeds the
dropoff), again on both sides of the C1 equivalence. -/
theorem specExample_dropoff_returns :
    (run defaultCfg [⟨0, true⟩,
      ⟨200, true⟩,
      ⟨400, true⟩,
      ⟨600, true⟩,
      ⟨800, true⟩,
      ⟨1000, true⟩,
      ⟨1200, true⟩,
      ⟨1400, true⟩,
      ⟨1600, true⟩,
      ⟨1800, true⟩,
      ⟨2000, true⟩,
      ⟨2200, true⟩,
      ⟨2400, true⟩,
      ⟨2600, true⟩,
      ⟨2800, true⟩,
      ⟨3000, false⟩,
      ⟨3200, false⟩,
      ⟨3400, false⟩,
      ⟨3600, false⟩,
      ⟨3800, false⟩,
      ⟨4000, false⟩,
      ⟨4200, false⟩,
      ⟨4400, false⟩,
      ⟨4600, false⟩,
      ⟨4800, false⟩,
      ⟨5000, false⟩,
      ⟨5200, false⟩,
      ⟨5400, false⟩,
      ⟨5600, false⟩,
      ⟨5800, false⟩]).phase = Phase.watching ∧
    ¬ aliveRecording defaultCfg [⟨0, true⟩,
      ⟨200, true⟩,
      ⟨400, true⟩,
      ⟨600, true⟩,
      ⟨800, true⟩,
      ⟨1000, true⟩,
      ⟨1200, true⟩,
      ⟨1400, true⟩,
      ⟨1600, true⟩,
      ⟨1800, true⟩,
      ⟨2000, true⟩,
      ⟨2200, true⟩,
      ⟨2400, true⟩,
      ⟨2600, true⟩,
      ⟨2800, true⟩,
      ⟨3000, false⟩,
      ⟨3200, false⟩,
      ⟨3400, false⟩,
      ⟨3600, false⟩,
      ⟨3800, false⟩,
      ⟨4000, false⟩,
      ⟨4200, false⟩,
      ⟨4400, false⟩,
      ⟨4600, false⟩,
      ⟨4800, false⟩,
      ⟨5000, false⟩,
      ⟨5200, false⟩,
      ⟨5400, false⟩,
      ⟨5600, false⟩,
      ⟨5800, false⟩] := by
  constructor <;> decide

end WatcherModel
